import Mathlib

/-!
Verification of the DataTable data-presentation engine
(`src/components/InputField/InputField.stories.tsx`, embedded DataTable
component, lines 280-551): column model, sort engine, selection tracker.

The component is generic over the row type `T extends Record<string, any>`;
we keep it generic over a type `T` together with a field-access function
`get : T → String → Value` modelling JavaScript property lookup
(`a[sortColumn]`), which yields `undefined` for a missing field.

Display values compared by the sort engine are modelled by `Value`:
strings (as their lists of characters, so that comparison and lowercasing
are structurally computable), numbers (the repository's data uses integer
numbers, so numbers are modelled as `Int`), and `undefined`.  JavaScript's
abstract relational comparison `<` compares two strings lexicographically
by code units and otherwise coerces both operands to numbers, any `NaN`
making the comparison false; `jsLt` below mirrors this for the value
shapes above.  `toLowerCase` is modelled on the ASCII range, which covers
the repository's data.

`Array.prototype.sort` is stable (ES2019); it is modelled by the stable
insertion sort `sortBy`, which keeps an earlier element before any later
element that compares equal.
-/

namespace DataTable

/-- A display value extracted from a row: the payloads the comparator in
`sortedData` can see.  A string is carried as its list of characters. -/
inductive Value where
  | str (s : List Char)
  | num (n : Int)
  | undefined
deriving DecidableEq, Repr

/-- Reads a digit string as a natural number. -/
def digitsToNat (s : List Char) : Nat :=
  s.foldl (fun acc c => acc * 10 + (c.toNat - 48)) 0

/-- JavaScript `ToNumber` restricted to the value shapes of the model:
numbers are themselves, `undefined` is NaN (`none`), a string parses as an
optionally-signed integer literal, the empty string being `0`, anything
else NaN. -/
def toNumber : Value → Option Int
  | .num n => some n
  | .undefined => none
  | .str [] => some 0
  | .str ('-' :: rest) =>
    if rest ≠ [] ∧ rest.all Char.isDigit then some (-(Int.ofNat (digitsToNat rest)))
    else none
  | .str s =>
    if s.all Char.isDigit then some (Int.ofNat (digitsToNat s)) else none

/-- Lexicographic string comparison by code units (JavaScript `<` on two
strings). -/
def listLt : List Char → List Char → Bool
  | [], [] => false
  | [], _ :: _ => true
  | _ :: _, [] => false
  | x :: xs, y :: ys =>
    if x.toNat < y.toNat then true
    else if y.toNat < x.toNat then false
    else listLt xs ys

/-- Numeric comparison after `ToNumber` coercion: any NaN (`none`) makes
the comparison false. -/
def numLt : Option Int → Option Int → Bool
  | some m, some n => decide (m < n)
  | _, _ => false

/-- JavaScript `a < b`: both strings compare lexicographically, otherwise
both are coerced to numbers and any NaN makes the comparison false. -/
def jsLt (a b : Value) : Bool :=
  match a, b with
  | .str x, .str y => listLt x y
  | a, b => numLt (toNumber a) (toNumber b)

/-- Sort direction; the source's `SortDirection` is `"asc" | "desc" | null`,
the `null` case being represented by `Option Dir` below. -/
inductive Dir where
  | asc
  | desc
deriving DecidableEq, Repr

/-- Presentation hint `align` of a column (not used by the core). -/
inductive Align where
  | left
  | center
  | right
deriving DecidableEq, Repr

/-- The column model (`Column<T>` in the source). -/
structure Column (T : Type) where
  key : String
  header : String
  accessor : Option (T → Value) := none
  sortable : Bool := false
  width : Option String := none
  align : Option Align := none

/-- The value the comparator extracts for a row: the column whose `key`
equals the active sort key is looked up; its `accessor` is applied if
present, otherwise (also when no column matches) the field named by the
sort key is read directly from the row. -/
def extractValue {T : Type} (get : T → String → Value) (cols : List (Column T))
    (k : String) (row : T) : Value :=
  match (cols.find? (fun c => c.key == k)).bind (fun c => c.accessor) with
  | some f => f row
  | none => get row k

/-- `toLowerCase` of a single character (ASCII range, which covers the
repository's data). -/
def lowChar (c : Char) : Char :=
  if 'A' ≤ c ∧ c ≤ 'Z' then Char.ofNat (c.toNat + 32) else c

/-- `toLowerCase` of a string. -/
def jsToLower (s : List Char) : List Char :=
  s.map lowChar

/-- Lowercase both values when both are strings (the "Handle different data
types" block of `sortedData`); otherwise leave them unchanged. -/
def lowerPair : Value → Value → Value × Value
  | .str x, .str y => (.str (jsToLower x), .str (jsToLower y))
  | a, b => (a, b)

/-- The three-way comparison of `sortedData`:
`aValue < bValue` gives `-1` ascending and `1` descending,
`aValue > bValue` gives `1` ascending and `-1` descending, else `0`. -/
def cmpPair (d : Dir) (p : Value × Value) : Int :=
  if jsLt p.1 p.2 then (if d = .asc then -1 else 1)
  else if jsLt p.2 p.1 then (if d = .asc then 1 else -1)
  else 0

/-- The comparator passed to `sort` in `sortedData`: extract both values,
lowercase when both are strings, then three-way compare, negated for the
descending direction. -/
def rowCompare {T : Type} (get : T → String → Value) (cols : List (Column T))
    (k : String) (d : Dir) (a b : T) : Int :=
  cmpPair d (lowerPair (extractValue get cols k a) (extractValue get cols k b))

/-- Insert `x` before the first element it does not compare strictly greater
than: the insertion step of a stable sort (an earlier element stays before
equal later ones). -/
def insertBy {α : Type} (cmp : α → α → Int) (x : α) : List α → List α
  | [] => [x]
  | y :: ys => if cmp x y ≤ 0 then x :: y :: ys else y :: insertBy cmp x ys

/-- Stable insertion sort, modelling the (ES2019-stable)
`Array.prototype.sort` on a copy `[...data]`. -/
def sortBy {α : Type} (cmp : α → α → Int) : List α → List α
  | [] => []
  | x :: xs => insertBy cmp x (sortBy cmp xs)

/-- `sortedData`: if `!sortColumn || !sortDirection` (recall the empty
string is falsy in JavaScript) return `data` unchanged, otherwise sort a
copy of `data` by the comparator. -/
def computeDisplayOrder {T : Type} (get : T → String → Value) (data : List T)
    (cols : List (Column T)) (sc : Option String) (sd : Option Dir) : List T :=
  match sc, sd with
  | some k, some d => if k = "" then data else sortBy (rowCompare get cols k d) data
  | _, _ => data

/-- The component's props and state relevant to the core: the `data` and
`columns` props together with the `selectedRows`, `sortColumn` and
`sortDirection` state.  A JavaScript `Set<number>` is modelled as its list
of elements in insertion order. -/
structure Config (T : Type) where
  data : List T
  columns : List (Column T)
  selectedRows : List Nat := []
  sortColumn : Option String := none
  sortDirection : Option Dir := none

/-- The current sorted view of a configuration (`sortedData`). -/
def view {T : Type} (get : T → String → Value) (cfg : Config T) : List T :=
  computeDisplayOrder get cfg.data cfg.columns cfg.sortColumn cfg.sortDirection

/-- `Set.add`: append the element unless already present (insertion order). -/
def setAdd (s : List Nat) (i : Nat) : List Nat :=
  if i ∈ s then s else s ++ [i]

/-- `Set.delete`: remove the element. -/
def setDelete (s : List Nat) (i : Nat) : List Nat :=
  s.filter (fun j => j ≠ i)

/-- `handleSort`: header-click transition.  Non-sortable columns are a
no-op; clicking the active column cycles asc → desc → (null, null);
clicking any other column activates it ascending. -/
def handleSort {T : Type} (column : Column T) (cfg : Config T) : Config T :=
  if column.sortable = false then cfg
  else
    let columnKey := column.key
    if cfg.sortColumn = some columnKey then
      if cfg.sortDirection = some .asc then
        { cfg with sortDirection := some .desc }
      else if cfg.sortDirection = some .desc then
        { cfg with sortDirection := none, sortColumn := none }
      else cfg
    else
      { cfg with sortColumn := some columnKey, sortDirection := some .asc }

/-- `handleRowSelect`: toggle one position, then emit to `onRowSelect` the
data items at the positions of the updated set
(`Array.from(newSelectedRows).map((i) => sortedData[i])`; an out-of-range
index yields `undefined`, modelled by `none`). -/
def handleRowSelect {T : Type} (get : T → String → Value) (cfg : Config T)
    (index : Nat) (checked : Bool) : Config T × List (Option T) :=
  let newSelectedRows :=
    if checked then setAdd cfg.selectedRows index else setDelete cfg.selectedRows index
  ({ cfg with selectedRows := newSelectedRows },
    newSelectedRows.map (fun i => (view get cfg)[i]?))

/-- `handleSelectAll`: select every position of the current view and emit
the whole view, or clear the selection and emit the empty list. -/
def handleSelectAll {T : Type} (get : T → String → Value) (cfg : Config T)
    (checked : Bool) : Config T × List (Option T) :=
  if checked then
    ({ cfg with selectedRows := List.range (view get cfg).length },
      (view get cfg).map some)
  else
    ({ cfg with selectedRows := [] }, [])

/-- `isAllSelected = selectedRows.size > 0 && selectedRows.size === sortedData.length`. -/
def isAllSelected {T : Type} (get : T → String → Value) (cfg : Config T) : Bool :=
  decide (0 < cfg.selectedRows.length) && (cfg.selectedRows.length == (view get cfg).length)

/-- `isIndeterminate = selectedRows.size > 0 && selectedRows.size < sortedData.length`
(the spec's `isPartiallySelected`). -/
def isIndeterminate {T : Type} (get : T → String → Value) (cfg : Config T) : Bool :=
  decide (0 < cfg.selectedRows.length) && decide (cfg.selectedRows.length < (view get cfg).length)

/-- The user-visible events of the component: a header click, a row
checkbox toggle, the select-all checkbox, and the parent re-rendering with
new `data` (which leaves the component's own state untouched). -/
inductive Event (T : Type) where
  | clickHeader (c : Column T)
  | toggleRow (i : Nat) (checked : Bool)
  | toggleAll (checked : Bool)
  | setData (newData : List T)

/-- One step of the component: dispatch an event to the matching handler
(`setData` replaces the prop, no state is cleared). -/
def step {T : Type} (get : T → String → Value) (cfg : Config T) : Event T → Config T
  | .clickHeader c => handleSort c cfg
  | .toggleRow i checked => (handleRowSelect get cfg i checked).1
  | .toggleAll checked => (handleSelectAll get cfg checked).1
  | .setData d => { cfg with data := d }

/-- The selection invariant claimed by the spec: every selected position is
inside the current view. -/
def SelInvariant {T : Type} (get : T → String → Value) (cfg : Config T) : Prop :=
  ∀ i ∈ cfg.selectedRows, i < (view get cfg).length

instance {T : Type} (get : T → String → Value) (cfg : Config T) :
    Decidable (SelInvariant get cfg) := by
  unfold SelInvariant; infer_instance

/-- A concrete row type for witnesses: a record as an association list of
fields, JavaScript property access returning `undefined` for a missing
field. -/
abbrev Row := List (String × Value)

/-- JavaScript property lookup on a `Row`. -/
def rowGet (r : Row) (k : String) : Value :=
  match r.find? (fun p => p.1 == k) with
  | some p => p.2
  | none => .undefined

/-- The comparator actually applied by `computeDisplayOrder`: the row
comparator when a sort is active (with a non-empty key), the
everything-ties comparator otherwise. -/
def activeCompare {T : Type} (get : T → String → Value) (cols : List (Column T))
    (sc : Option String) (sd : Option Dir) : T → T → Int :=
  match sc, sd with
  | some k, some d => if k = "" then fun _ _ => 0 else rowCompare get cols k d
  | _, _ => fun _ _ => 0

/-- Antisymmetry interface for a three-way comparator. -/
def CmpFlip {α : Type} (cmp : α → α → Int) : Prop :=
  ∀ a b, 0 < cmp a b → cmp b a < 0

/-- Field access lifted to rows tagged with their original position. -/
def tagGet {T : Type} (get : T → String → Value) : (Nat × T) → String → Value :=
  fun p k => get p.2 k

/-- A column lifted to rows tagged with their original position. -/
def tagCol {T : Type} (c : Column T) : Column (Nat × T) :=
  { key := c.key, header := c.header,
    accessor := c.accessor.map (fun f => fun p => f p.2),
    sortable := c.sortable, width := c.width, align := c.align }

/-- The spec's claimed `SortState` invariant: the sort column and the sort
direction are both present or both absent. -/
def SortInvariant {T : Type} (cfg : Config T) : Prop :=
  cfg.sortColumn.isSome = cfg.sortDirection.isSome

instance {T : Type} (cfg : Config T) : Decidable (SortInvariant cfg) := by
  unfold SortInvariant; infer_instance

/-- A sortable name column, as in the stories' usage of the table. -/
def nameCol : Column Row :=
  { key := "name", header := "Name", sortable := true }

/-- A sortable age column. -/
def ageCol : Column Row :=
  { key := "age", header := "Age", sortable := true }

/-- A non-sortable email column. -/
def emailCol : Column Row :=
  { key := "email", header := "Email" }

/-- The column list used by the concrete examples. -/
def demoColumns : List (Column Row) :=
  [nameCol, ageCol, emailCol]

/-- A concrete row with a name and an age. -/
def mkRow (nm : List Char) (ag : Int) : Row :=
  [("name", .str nm), ("age", .num ag)]

/-- The spec's case-insensitivity example data: names
"banana", "Apple", "cherry" in that insertion order. -/
def demoData : List Row :=
  [mkRow "banana".data 30, mkRow "Apple".data 25, mkRow "cherry".data 35]

/-- A freshly mounted table over `demoData`. -/
def demoCfg : Config Row :=
  { data := demoData, columns := demoColumns }

/-- A freshly mounted table over two rows. -/
def demoCfgTwo : Config Row :=
  { data := [mkRow "banana".data 30, mkRow "Apple".data 25], columns := demoColumns }

/-- A freshly mounted table over an empty dataset. -/
def emptyCfg : Config Row :=
  { data := [], columns := demoColumns }

/-- Five rows with exactly one selected position. -/
def demoCfgFive : Config Row :=
  { data := [mkRow "a".data 1, mkRow "b".data 2, mkRow "c".data 3,
      mkRow "d".data 4, mkRow "e".data 5],
    columns := demoColumns,
    selectedRows := [1] }

section SortLemmas

variable {α : Type} (cmp : α → α → Int)

theorem insertBy_perm (x : α) (l : List α) : List.Perm (insertBy cmp x l) (x :: l) := by
  induction l with
  | nil => simp [insertBy]
  | cons y ys ih =>
    unfold insertBy
    split
    · exact List.Perm.refl _
    · exact List.Perm.trans (List.Perm.cons y ih) (List.Perm.swap x y ys)

theorem sortBy_perm (l : List α) : List.Perm (sortBy cmp l) l := by
  induction l with
  | nil => exact List.Perm.refl _
  | cons x xs ih =>
    exact List.Perm.trans (insertBy_perm cmp x (sortBy cmp xs)) (List.Perm.cons x ih)

theorem mem_sortBy {a : α} {l : List α} : a ∈ sortBy cmp l ↔ a ∈ l :=
  (sortBy_perm cmp l).mem_iff

theorem insertBy_chain (h : CmpFlip cmp) (x : α) {l : List α}
    (hl : List.Chain' (fun a b => cmp a b ≤ 0) l) :
    List.Chain' (fun a b => cmp a b ≤ 0) (insertBy cmp x l) := by
  induction l with
  | nil => simp [insertBy]
  | cons y ys ih =>
    unfold insertBy
    split
    · next hxy => exact List.Chain'.cons hxy hl
    · next hxy =>
      have hyx : cmp y x ≤ 0 := le_of_lt (h x y (lt_of_not_le hxy))
      have hys : List.Chain' (fun a b => cmp a b ≤ 0) ys := hl.tail
      refine List.chain'_cons'.mpr ⟨?_, ih hys⟩
      intro b hb
      cases ys with
      | nil =>
        simp [insertBy] at hb
        subst hb; exact hyx
      | cons z zs =>
        unfold insertBy at hb
        split at hb
        · simp at hb; subst hb; exact hyx
        · simp at hb; subst hb
          exact (List.chain'_cons.mp hl).1

theorem sortBy_chain (h : CmpFlip cmp) (l : List α) :
    List.Chain' (fun a b => cmp a b ≤ 0) (sortBy cmp l) := by
  induction l with
  | nil => simp [sortBy]
  | cons x xs ih => exact insertBy_chain cmp h x ih

theorem sortBy_eq_of_chain {l : List α}
    (hl : List.Chain' (fun a b => cmp a b ≤ 0) l) : sortBy cmp l = l := by
  induction l with
  | nil => rfl
  | cons x xs ih =>
    have hxs : sortBy cmp xs = xs := ih hl.tail
    show insertBy cmp x (sortBy cmp xs) = x :: xs
    rw [hxs]
    cases xs with
    | nil => rfl
    | cons y ys =>
      have hxy : cmp x y ≤ 0 := (List.chain'_cons.mp hl).1
      unfold insertBy
      rw [if_pos hxy]

theorem sortBy_idem (h : CmpFlip cmp) (l : List α) :
    sortBy cmp (sortBy cmp l) = sortBy cmp l :=
  sortBy_eq_of_chain cmp (sortBy_chain cmp h l)

theorem insertBy_pairwise (h : CmpFlip cmp) {S : α → α → Prop} (x : α) {l : List α}
    (hx : ∀ y ∈ l, cmp x y = 0 → S x y)
    (hl : List.Pairwise (fun a b => cmp a b = 0 → S a b) l) :
    List.Pairwise (fun a b => cmp a b = 0 → S a b) (insertBy cmp x l) := by
  induction l with
  | nil => simp [insertBy]
  | cons y ys ih =>
    unfold insertBy
    rcases List.pairwise_cons.mp hl with ⟨hy, hys⟩
    split
    · next hxy =>
      exact List.Pairwise.cons hx hl
    · next hxy =>
      have hyx : cmp y x < 0 := h x y (lt_of_not_le hxy)
      refine List.pairwise_cons.mpr ⟨?_, ?_⟩
      · intro z hz
        rcases List.mem_cons.mp (((insertBy_perm cmp x ys).mem_iff).mp hz) with hz' | hz'
        · subst hz'
          intro h0
          exact absurd h0 (ne_of_lt hyx)
        · exact hy z hz'
      · exact ih (fun z hz => hx z (List.mem_cons_of_mem y hz)) hys

theorem sortBy_pairwise (h : CmpFlip cmp) {S : α → α → Prop} {l : List α}
    (hl : List.Pairwise (fun a b => cmp a b = 0 → S a b) l) :
    List.Pairwise (fun a b => cmp a b = 0 → S a b) (sortBy cmp l) := by
  induction l with
  | nil => simp [sortBy]
  | cons x xs ih =>
    rcases List.pairwise_cons.mp hl with ⟨hx, hxs⟩
    exact insertBy_pairwise cmp h x
      (fun y hy => hx y ((mem_sortBy cmp).mp hy)) (ih hxs)

theorem insertBy_map {β : Type} (cmpb : β → β → Int) (f : β → α)
    (hc : ∀ a b, cmpb a b = cmp (f a) (f b)) (x : β) (l : List β) :
    (insertBy cmpb x l).map f = insertBy cmp (f x) (l.map f) := by
  induction l with
  | nil => rfl
  | cons y ys ih =>
    show (insertBy cmpb x (y :: ys)).map f = insertBy cmp (f x) (f y :: ys.map f)
    unfold insertBy
    rw [hc x y]
    split
    · rfl
    · simpa using ih

theorem sortBy_map {β : Type} (cmpb : β → β → Int) (f : β → α)
    (hc : ∀ a b, cmpb a b = cmp (f a) (f b)) (l : List β) :
    (sortBy cmpb l).map f = sortBy cmp (l.map f) := by
  induction l with
  | nil => rfl
  | cons x xs ih =>
    show (insertBy cmpb x (sortBy cmpb xs)).map f = insertBy cmp (f x) (sortBy cmp (xs.map f))
    rw [insertBy_map cmp cmpb f hc, ih]

theorem sortBy_zero (l : List α) : sortBy (fun _ _ => (0 : Int)) l = l := by
  induction l with
  | nil => rfl
  | cons x xs ih =>
    show insertBy (fun _ _ => (0 : Int)) x (sortBy (fun _ _ => (0 : Int)) xs) = x :: xs
    rw [ih]
    cases xs with
    | nil => rfl
    | cons y ys => simp [insertBy]

end SortLemmas

theorem listLt_asymm : ∀ (x y : List Char), listLt x y = true → listLt y x = false := by
  intro x
  induction x with
  | nil =>
    intro y h
    cases y with
    | nil => simp [listLt] at h
    | cons b bs => simp [listLt]
  | cons a as ih =>
    intro y h
    cases y with
    | nil => simp [listLt] at h
    | cons b bs =>
      unfold listLt at h ⊢
      by_cases hab : a.toNat < b.toNat
      · rw [if_neg (by omega), if_pos hab]
      · rw [if_neg hab] at h
        by_cases hba : b.toNat < a.toNat
        · rw [if_pos hba] at h
          simp at h
        · rw [if_neg hba] at h
          rw [if_neg hba, if_neg hab]
          exact ih bs h

theorem numLt_asymm (o₁ o₂ : Option Int) (h : numLt o₁ o₂ = true) :
    numLt o₂ o₁ = false := by
  cases o₁ with
  | none => simp [numLt] at h
  | some m =>
    cases o₂ with
    | none => simp [numLt] at h
    | some n =>
      simp [numLt] at h ⊢
      omega

theorem jsLt_asymm (a b : Value) (h : jsLt a b = true) : jsLt b a = false := by
  cases a with
  | str x =>
    cases b with
    | str y => simpa [jsLt] using listLt_asymm x y (by simpa [jsLt] using h)
    | num n => simpa [jsLt] using numLt_asymm _ _ (by simpa [jsLt] using h)
    | undefined => simpa [jsLt] using numLt_asymm _ _ (by simpa [jsLt] using h)
  | num m =>
    cases b with
    | str y => simpa [jsLt] using numLt_asymm _ _ (by simpa [jsLt] using h)
    | num n => simpa [jsLt] using numLt_asymm _ _ (by simpa [jsLt] using h)
    | undefined => simpa [jsLt] using numLt_asymm _ _ (by simpa [jsLt] using h)
  | undefined =>
    cases b with
    | str y => simpa [jsLt] using numLt_asymm _ _ (by simpa [jsLt] using h)
    | num n => simpa [jsLt] using numLt_asymm _ _ (by simpa [jsLt] using h)
    | undefined => simpa [jsLt] using numLt_asymm _ _ (by simpa [jsLt] using h)

theorem lowerPair_swap (u v : Value) :
    lowerPair v u = ((lowerPair u v).2, (lowerPair u v).1) := by
  cases u <;> cases v <;> simp [lowerPair]

theorem cmpPair_neg (d : Dir) (p : Value × Value) :
    cmpPair d (p.2, p.1) = -(cmpPair d p) := by
  unfold cmpPair
  by_cases h1 : jsLt p.1 p.2 = true
  · have h2 : jsLt p.2 p.1 = false := jsLt_asymm _ _ h1
    cases d <;> simp [h1, h2]
  · have h1' : jsLt p.1 p.2 = false := by simpa using h1
    by_cases h2 : jsLt p.2 p.1 = true
    · cases d <;> simp [h1', h2]
    · have h2' : jsLt p.2 p.1 = false := by simpa using h2
      cases d <;> simp [h1', h2']

theorem rowCompare_neg {T : Type} (get : T → String → Value) (cols : List (Column T))
    (k : String) (d : Dir) (a b : T) :
    rowCompare get cols k d b a = -(rowCompare get cols k d a b) := by
  unfold rowCompare
  rw [lowerPair_swap (extractValue get cols k a) (extractValue get cols k b)]
  exact cmpPair_neg d _

theorem rowCompare_flip {T : Type} (get : T → String → Value) (cols : List (Column T))
    (k : String) (d : Dir) : CmpFlip (rowCompare get cols k d) := by
  intro a b h
  rw [rowCompare_neg]
  omega

theorem activeCompare_flip {T : Type} (get : T → String → Value) (cols : List (Column T))
    (sc : Option String) (sd : Option Dir) : CmpFlip (activeCompare get cols sc sd) := by
  cases sc with
  | none => intro a b h; simp [activeCompare] at h
  | some k =>
    cases sd with
    | none => intro a b h; simp [activeCompare] at h
    | some d =>
      by_cases hk : k = ""
      · intro a b h; simp [activeCompare, hk] at h
      · intro a b h
        simp only [activeCompare, if_neg hk] at h ⊢
        exact rowCompare_flip get cols k d a b h

theorem computeDisplayOrder_eq_sortBy {T : Type} (get : T → String → Value)
    (data : List T) (cols : List (Column T)) (sc : Option String) (sd : Option Dir) :
    computeDisplayOrder get data cols sc sd = sortBy (activeCompare get cols sc sd) data := by
  cases sc with
  | none => simp [computeDisplayOrder, activeCompare, sortBy_zero]
  | some k =>
    cases sd with
    | none => simp [computeDisplayOrder, activeCompare, sortBy_zero]
    | some d =>
      by_cases hk : k = ""
      · simp [computeDisplayOrder, activeCompare, hk, sortBy_zero]
      · simp [computeDisplayOrder, activeCompare, hk]

theorem extractValue_tag {T : Type} (get : T → String → Value) (cols : List (Column T))
    (k : String) (p : Nat × T) :
    extractValue (tagGet get) (cols.map tagCol) k p = extractValue get cols k p.2 := by
  unfold extractValue
  rw [List.find?_map]
  have hpred : ((fun c : Column (Nat × T) => c.key == k) ∘ tagCol) =
      (fun c : Column T => c.key == k) := rfl
  rw [hpred]
  cases hfind : List.find? (fun c : Column T => c.key == k) cols with
  | none => rfl
  | some c =>
    cases hacc : c.accessor with
    | none => simp [tagCol, hacc, tagGet]
    | some f => simp [tagCol, hacc]

theorem rowCompare_tag {T : Type} (get : T → String → Value) (cols : List (Column T))
    (k : String) (d : Dir) (p q : Nat × T) :
    rowCompare (tagGet get) (cols.map tagCol) k d p q = rowCompare get cols k d p.2 q.2 := by
  unfold rowCompare
  rw [extractValue_tag, extractValue_tag]

theorem activeCompare_tag {T : Type} (get : T → String → Value) (cols : List (Column T))
    (sc : Option String) (sd : Option Dir) (p q : Nat × T) :
    activeCompare (tagGet get) (cols.map tagCol) sc sd p q =
      activeCompare get cols sc sd p.2 q.2 := by
  cases sc with
  | none => rfl
  | some k =>
    cases sd with
    | none => rfl
    | some d =>
      by_cases hk : k = ""
      · simp [activeCompare, hk]
      · simp only [activeCompare, if_neg hk]
        exact rowCompare_tag get cols k d p q

theorem le_fst_of_mem_enumFrom {α : Type} :
    ∀ (n : Nat) (l : List α) (p : Nat × α), p ∈ List.enumFrom n l → n ≤ p.1 := by
  intro n l
  induction l generalizing n with
  | nil => intro p hp; simp [List.enumFrom] at hp
  | cons x xs ih =>
    intro p hp
    rcases List.mem_cons.mp hp with h | h
    · subst h; exact Nat.le_refl n
    · exact Nat.le_of_succ_le (ih (n + 1) p h)

theorem pairwise_fst_lt_enumFrom {α : Type} :
    ∀ (n : Nat) (l : List α),
      List.Pairwise (fun p q : Nat × α => p.1 < q.1) (List.enumFrom n l) := by
  intro n l
  induction l generalizing n with
  | nil => simp [List.enumFrom]
  | cons x xs ih =>
    refine List.pairwise_cons.mpr ⟨?_, ih (n + 1)⟩
    intro q hq
    exact Nat.lt_of_succ_le (le_fst_of_mem_enumFrom (n + 1) xs q hq)

theorem pairwise_fst_lt_enum {α : Type} (l : List α) :
    List.Pairwise (fun p q : Nat × α => p.1 < q.1) l.enum :=
  pairwise_fst_lt_enumFrom 0 l

/-- C1: the sort engine is stable.  Tag every row of the input with its
original position: in the output of `computeDisplayOrder`, whenever two
rows' comparison values compare equal, their original positions appear in
increasing order (first conjunct, stated on the position-tagged run, which
projects back to the untagged run by the second conjunct); consequently
sorting the same data twice with the same column and direction yields the
same ordering as sorting it once (third conjunct). -/
theorem C1_sort_engine_stable {T : Type} (get : T → String → Value) (data : List T)
    (cols : List (Column T)) (sc : Option String) (sd : Option Dir) :
    List.Pairwise
      (fun p q : Nat × T =>
        activeCompare (tagGet get) (cols.map tagCol) sc sd p q = 0 → p.1 < q.1)
      (computeDisplayOrder (tagGet get) data.enum (cols.map tagCol) sc sd)
    ∧ computeDisplayOrder get data cols sc sd
        = (computeDisplayOrder (tagGet get) data.enum (cols.map tagCol) sc sd).map Prod.snd
    ∧ computeDisplayOrder get (computeDisplayOrder get data cols sc sd) cols sc sd
        = computeDisplayOrder get data cols sc sd := by
  have hflip := activeCompare_flip (tagGet get) (cols.map tagCol) sc sd
  have hflip' := activeCompare_flip get cols sc sd
  refine ⟨?_, ?_, ?_⟩
  · rw [computeDisplayOrder_eq_sortBy]
    exact sortBy_pairwise _ hflip
      ((pairwise_fst_lt_enum data).imp (fun h => fun _ => h))
  · rw [computeDisplayOrder_eq_sortBy, computeDisplayOrder_eq_sortBy,
      sortBy_map (activeCompare get cols sc sd) _ Prod.snd
        (fun a b => activeCompare_tag get cols sc sd a b),
      List.enum_map_snd]
  · rw [computeDisplayOrder_eq_sortBy, computeDisplayOrder_eq_sortBy]
    exact sortBy_idem _ hflip' data

/-- C2: header clicks follow the transition table.  For a sortable column:
from any state where this column is not the active sort column (including
no sort at all, and another column active) a click yields (this column,
ascending); from (this column, ascending) a click yields (this column,
descending); from (this column, descending) a click clears the sort, so
three consecutive clicks starting from no sort restore the original
unsorted display order; and clicking a non-sortable column's header
changes neither the state nor the displayed order. -/
theorem C2_header_click_transitions {T : Type} (get : T → String → Value)
    (c : Column T) (cfg : Config T) :
    (c.sortable = true → cfg.sortColumn ≠ some c.key →
      (handleSort c cfg).sortColumn = some c.key ∧
      (handleSort c cfg).sortDirection = some Dir.asc)
    ∧ (c.sortable = true → cfg.sortColumn = some c.key →
        cfg.sortDirection = some Dir.asc →
        (handleSort c cfg).sortColumn = some c.key ∧
        (handleSort c cfg).sortDirection = some Dir.desc)
    ∧ (c.sortable = true → cfg.sortColumn = some c.key →
        cfg.sortDirection = some Dir.desc →
        (handleSort c cfg).sortColumn = none ∧
        (handleSort c cfg).sortDirection = none)
    ∧ (c.sortable = true → cfg.sortColumn = none →
        (handleSort c (handleSort c (handleSort c cfg))).sortColumn = none ∧
        (handleSort c (handleSort c (handleSort c cfg))).sortDirection = none ∧
        view get (handleSort c (handleSort c (handleSort c cfg))) = cfg.data ∧
        view get cfg = cfg.data)
    ∧ (c.sortable = false →
        handleSort c cfg = cfg ∧ view get (handleSort c cfg) = view get cfg) := by
  refine ⟨?_, ?_, ?_, ?_, ?_⟩
  · intro hs hne
    simp [handleSort, hs, hne]
  · intro hs hc hd
    simp [handleSort, hs, hc, hd]
  · intro hs hc hd
    simp [handleSort, hs, hc, hd]
  · intro hs hc
    have h1 : handleSort c cfg =
        { cfg with sortColumn := some c.key, sortDirection := some Dir.asc } := by
      simp [handleSort, hs, hc]
    have h3 : handleSort c (handleSort c (handleSort c cfg)) =
        { cfg with sortColumn := none, sortDirection := none } := by
      rw [h1]
      simp [handleSort, hs]
    rw [h3]
    refine ⟨rfl, rfl, ?_, ?_⟩
    · simp [view, computeDisplayOrder]
    · simp [view, computeDisplayOrder, hc]
  · intro hs
    have h : handleSort c cfg = cfg := by
      simp [handleSort, hs]
    rw [h]
    exact ⟨rfl, rfl⟩

/-- Witness for C2 at concrete inputs: the thrice-clicked name column
restores the unsorted order of `demoCfg`, a first click activates
ascending sort, and clicking the non-sortable email column is a no-op. -/
theorem C2_header_click_transitions_witness :
    nameCol.sortable = true ∧ demoCfg.sortColumn = none ∧ emailCol.sortable = false ∧
    ((handleSort nameCol demoCfg).sortColumn = some nameCol.key ∧
      (handleSort nameCol demoCfg).sortDirection = some Dir.asc) ∧
    ((handleSort nameCol (handleSort nameCol (handleSort nameCol demoCfg))).sortColumn = none ∧
      (handleSort nameCol (handleSort nameCol (handleSort nameCol demoCfg))).sortDirection = none ∧
      view rowGet (handleSort nameCol (handleSort nameCol (handleSort nameCol demoCfg)))
        = demoCfg.data ∧
      view rowGet demoCfg = demoCfg.data) ∧
    (handleSort emailCol demoCfg = demoCfg ∧
      view rowGet (handleSort emailCol demoCfg) = view rowGet demoCfg) :=
  ⟨by decide, by decide, by decide,
    (C2_header_click_transitions rowGet nameCol demoCfg).1 (by decide) (by decide),
    (C2_header_click_transitions rowGet nameCol demoCfg).2.2.2.1 (by decide) (by decide),
    (C2_header_click_transitions rowGet emailCol demoCfg).2.2.2.2 (by decide)⟩

/-- C3 fails on the code: the component never intersects or clears
`selectedRows` when the underlying data changes.  Select both rows of a
two-row table, then re-render with a one-row dataset: position 1 stays
selected but the view has length 1, violating the claimed invariant. -/
theorem C3_selection_invariant_violated :
    ¬ SelInvariant rowGet
        (step rowGet (step rowGet demoCfgTwo (Event.toggleAll true))
          (Event.setData [mkRow "Apple".data 25])) := by decide

/-- C4 as stated fails on the empty view: `toggleAll(true)` on a view of
length 0 leaves the selection empty and `isAllSelected` is false, not
true. -/
theorem C4_select_all_counterexample :
    isAllSelected rowGet (handleSelectAll rowGet emptyCfg true).1 = false := by decide

/-- C4 (amended to nonempty views): for every configuration whose current
view is nonempty, `toggleAll(true)` selects exactly the positions
`0..N-1` of the view, makes `isAllSelected` true, and emits exactly the N
rows of the current view to `onRowSelect`; `toggleAll(false)` empties the
selection and emits the empty list. -/
theorem C4_select_all_consistency {T : Type} (get : T → String → Value) (cfg : Config T)
    (h : view get cfg ≠ []) :
    (handleSelectAll get cfg true).1.selectedRows = List.range (view get cfg).length ∧
    isAllSelected get (handleSelectAll get cfg true).1 = true ∧
    (handleSelectAll get cfg true).2 = (view get cfg).map some ∧
    (handleSelectAll get cfg true).2.length = (view get cfg).length ∧
    (handleSelectAll get cfg false).1.selectedRows = [] ∧
    (handleSelectAll get cfg false).2 = [] := by
  have hlen : 0 < (view get cfg).length := List.length_pos.mpr h
  have hlen' : 0 < (computeDisplayOrder get cfg.data cfg.columns
      cfg.sortColumn cfg.sortDirection).length := hlen
  refine ⟨rfl, ?_, rfl, ?_, rfl, rfl⟩
  · show isAllSelected get { cfg with selectedRows := List.range (view get cfg).length } = true
    simp [isAllSelected, view, List.length_range, hlen']
  · show ((view get cfg).map some).length = (view get cfg).length
    simp

/-- Witness for C4 (amended) on the three-row demo table. -/
theorem C4_select_all_consistency_witness :
    view rowGet demoCfg ≠ [] ∧
    isAllSelected rowGet (handleSelectAll rowGet demoCfg true).1 = true ∧
    (handleSelectAll rowGet demoCfg false).2 = [] :=
  ⟨by decide,
    (C4_select_all_consistency rowGet demoCfg (by decide)).2.1,
    (C4_select_all_consistency rowGet demoCfg (by decide)).2.2.2.2.2⟩

theorem range_map_getElem {α : Type} (l : List α) :
    (List.range l.length).map (fun j => l[j]?) = l.map some := by
  induction l with
  | nil => rfl
  | cons x xs ih =>
    rw [List.length_cons, List.range_succ_eq_map, List.map_cons, List.map_map]
    simp only [List.getElem?_cons_zero, List.map_cons]
    refine congrArg _ ?_
    calc (List.range xs.length).map ((fun j => (x :: xs)[j]?) ∘ Nat.succ)
        = (List.range xs.length).map (fun j => xs[j]?) := by
          refine List.map_congr_left ?_
          intro a _
          simp [List.getElem?_cons_succ]
      _ = xs.map some := ih

/-- C5: after either selection operation updates the selection set, the
payload handed to `onRowSelect` is exactly the rows of the current sorted
view looked up at the positions of the updated set (an out-of-range
position yielding JavaScript's `undefined`, i.e. `none`) — never the raw
position set. -/
theorem C5_callback_materializes_rows {T : Type} (get : T → String → Value)
    (cfg : Config T) (i : Nat) (c₁ c₂ : Bool) :
    (handleRowSelect get cfg i c₁).2
      = ((handleRowSelect get cfg i c₁).1).selectedRows.map (fun j => (view get cfg)[j]?)
    ∧ (handleSelectAll get cfg c₂).2
      = ((handleSelectAll get cfg c₂).1).selectedRows.map (fun j => (view get cfg)[j]?) := by
  constructor
  · rfl
  · cases c₂ with
    | false => rfl
    | true =>
      show (view get cfg).map some
          = (List.range (view get cfg).length).map (fun j => (view get cfg)[j]?)
      exact (range_map_getElem (view get cfg)).symm

/-- C6: `isAllSelected` holds exactly when the selection is non-empty and
its size equals the view length, `isIndeterminate` (the spec's
`isPartiallySelected`) exactly when the selection is non-empty and
strictly smaller than the view; with 1 of 5 rows selected the table is
partially selected and not all-selected. -/
theorem C6_aggregate_selection_flags {T : Type} (get : T → String → Value)
    (cfg : Config T) :
    (isAllSelected get cfg = true ↔
      cfg.selectedRows ≠ [] ∧ cfg.selectedRows.length = (view get cfg).length)
    ∧ (isIndeterminate get cfg = true ↔
      cfg.selectedRows ≠ [] ∧ cfg.selectedRows.length < (view get cfg).length)
    ∧ isIndeterminate rowGet demoCfgFive = true
    ∧ isAllSelected rowGet demoCfgFive = false := by
  refine ⟨?_, ?_, by decide, by decide⟩
  · simp [isAllSelected, List.length_pos]
  · simp [isIndeterminate, List.length_pos]

/-- C7: when both extracted comparison values are strings the comparator
lowercases both sides before the three-way comparison; ascending sort of
the names "banana", "Apple", "cherry" yields "Apple", "banana",
"cherry". -/
theorem C7_case_insensitive_string_sort {T : Type} (get : T → String → Value)
    (cols : List (Column T)) (k : String) (d : Dir) (a b : T) (x y : List Char)
    (hx : extractValue get cols k a = .str x) (hy : extractValue get cols k b = .str y) :
    rowCompare get cols k d a b
      = cmpPair d (.str (jsToLower x), .str (jsToLower y))
    ∧ view rowGet { demoCfg with sortColumn := some "name", sortDirection := some Dir.asc }
      = [mkRow "Apple".data 25, mkRow "banana".data 30, mkRow "cherry".data 35] := by
  refine ⟨?_, by decide⟩
  unfold rowCompare
  rw [hx, hy]
  rfl

/-- Witness for C7: rows whose name values are "banana" and "Apple". -/
theorem C7_case_insensitive_string_sort_witness :
    extractValue rowGet demoColumns "name" (mkRow "banana".data 30) = .str "banana".data
    ∧ rowCompare rowGet demoColumns "name" Dir.asc
        (mkRow "banana".data 30) (mkRow "Apple".data 25)
      = cmpPair Dir.asc (.str (jsToLower "banana".data), .str (jsToLower "Apple".data)) :=
  ⟨by decide,
    (C7_case_insensitive_string_sort rowGet demoColumns "name" Dir.asc
      (mkRow "banana".data 30) (mkRow "Apple".data 25) "banana".data "Apple".data
      (by decide) (by decide)).1⟩

/-- C8: in the initial state both sort fields are absent, and every event
(header click included) keeps the sort column and the sort direction
simultaneously present or simultaneously absent. -/
theorem C8_sort_state_invariant {T : Type} (get : T → String → Value) (data : List T)
    (cols : List (Column T)) (cfg : Config T) (e : Event T)
    (h : SortInvariant cfg) :
    SortInvariant ({ data := data, columns := cols } : Config T) ∧
    SortInvariant (step get cfg e) := by
  constructor
  · rfl
  · cases e with
    | toggleRow i checked => exact h
    | toggleAll checked =>
      show SortInvariant (handleSelectAll get cfg checked).1
      unfold handleSelectAll
      split <;> exact h
    | setData d => exact h
    | clickHeader c =>
      show SortInvariant (handleSort c cfg)
      by_cases hs : c.sortable = false
      · simpa [handleSort, hs] using h
      · by_cases hc : cfg.sortColumn = some c.key
        · by_cases ha : cfg.sortDirection = some Dir.asc
          · simp [handleSort, hs, hc, ha, SortInvariant]
          · by_cases hd : cfg.sortDirection = some Dir.desc
            · simp [handleSort, hs, hc, ha, hd, SortInvariant]
            · simpa [handleSort, hs, hc, ha, hd] using h
        · simp [handleSort, hs, hc, SortInvariant]

/-- Witness for C8: the fresh demo table satisfies the invariant and a
click on the name column preserves it. -/
theorem C8_sort_state_invariant_witness :
    SortInvariant demoCfg ∧
    SortInvariant ({ data := demoData, columns := demoColumns } : Config Row) ∧
    SortInvariant (step rowGet demoCfg (Event.clickHeader nameCol)) :=
  ⟨by decide,
    (C8_sort_state_invariant rowGet demoData demoColumns demoCfg
      (Event.clickHeader nameCol) (by decide)).1,
    (C8_sort_state_invariant rowGet demoData demoColumns demoCfg
      (Event.clickHeader nameCol) (by decide)).2⟩

/-- C9: when the sort column is absent `computeDisplayOrder` returns the
input data unchanged, whatever the direction field holds. -/
theorem C9_absent_sort_identity {T : Type} (get : T → String → Value)
    (data : List T) (cols : List (Column T)) (sd : Option Dir) :
    computeDisplayOrder get data cols none sd = data := by
  cases sd <;> rfl

/-- C10: for every data sequence, column list and sort state the computed
view is a permutation of the input (same length, each row occurring the
same number of times); the input list itself is never modified, the
engine sorting a copy. -/
theorem C10_view_is_permutation {T : Type} (get : T → String → Value)
    (data : List T) (cols : List (Column T)) (sc : Option String) (sd : Option Dir) :
    List.Perm (computeDisplayOrder get data cols sc sd) data ∧
    (computeDisplayOrder get data cols sc sd).length = data.length := by
  rw [computeDisplayOrder_eq_sortBy]
  exact ⟨sortBy_perm _ data, (sortBy_perm _ data).length_eq⟩

end DataTable
